import Mathlib

/-!
Verification of the Mini Search Engine for Articles (app.js).

The JavaScript engine is shallowly embedded: the `MiniSearchEngine` class
becomes the `Engine` structure, its methods become pure functions (stateful
methods take and return an `Engine`), JS numbers that can only be integers
or `-Infinity` become `JsNum`, and JS `parseInt` on a string becomes
`Option Int` (with `none` playing the role of `NaN`).
-/

/-- JS numeric value as it occurs for identifiers and the `nextId` counter:
an integer, or `-Infinity` (which arises from `Math.max()` of no arguments
in `loadArticles`). -/
inductive JsNum where
  | negInf
  | int (n : Int)
deriving DecidableEq, Repr

/-- JS `x + 1` on a `JsNum`: `-Infinity + 1` is `-Infinity`. -/
def jsAdd1 : JsNum → JsNum
  | .negInf => .negInf
  | .int n => .int (n + 1)

/-- JS `Math.max` on two `JsNum` values. -/
def jsMax : JsNum → JsNum → JsNum
  | .negInf, b => b
  | .int a, .negInf => .int a
  | .int a, .int b => .int (max a b)

/-- JS `Math.max(...list)`: fold of `jsMax` starting from `-Infinity`
(`Math.max()` with no arguments is `-Infinity`). -/
def jsMaxList (l : List JsNum) : JsNum := l.foldl jsMax .negInf

/-- JS `String.prototype.toLowerCase` (ASCII letters, as `Char.toLower`). -/
def jsToLower (s : String) : String := ⟨s.data.map Char.toLower⟩

/-- Auxiliary for `jsSplitWs`: splits a character list at maximal whitespace
runs, keeping the (possibly empty) chunks before the first run and after the
last run, exactly as JS `split(/\s+/)` does. `acc` is the current chunk in
reverse; the flag records whether the previous character was whitespace. -/
def splitWsAux : List Char → List Char → Bool → List String
  | [], acc, _ => [⟨acc.reverse⟩]
  | c :: rest, acc, inWs =>
    if c.isWhitespace then
      if inWs then splitWsAux rest acc true
      else ⟨acc.reverse⟩ :: splitWsAux rest [] true
    else
      splitWsAux rest (c :: acc) false

/-- JS `String.prototype.split(/\s+/)`: splits on runs of whitespace; a
leading or trailing whitespace run produces an empty chunk, and the empty
string yields `[""]`. -/
def jsSplitWs (s : String) : List String := splitWsAux s.data [] false

/-- One atom of the modelled regex fragment: a literal character or the `.`
wildcard. -/
inductive RegexAtom where
  | lit (c : Char)
  | dot
deriving DecidableEq, Repr

/-- The JS regex metacharacters. A token containing none of them denotes
the literal string itself, so matching it is substring search. -/
def regexMetaChars : List Char :=
  ['.', '\\', '^', '$', '*', '+', '?', '(', ')', '[', ']', '\x7b', '\x7d', '|']

/-- A token free of regex metacharacters: `new RegExp(token)` then matches
exactly the literal token. -/
def regexLiteralToken (s : String) : Bool :=
  s.data.all (fun c => !(regexMetaChars.contains c))

/-- The pattern denoted by a token, within the modelled fragment of JS
regexes: `.` becomes the wildcard and every other character a literal atom.
The translation is faithful for tokens whose only metacharacter is `.`;
tokens using further regex constructs (escapes, classes, groups,
quantifiers, anchors, alternation) are outside the modelled fragment. -/
def patAtoms (pat : List Char) : List RegexAtom :=
  pat.map (fun c => if c = '.' then RegexAtom.dot else RegexAtom.lit c)

/-- Whether one atom matches one character: a literal matches exactly
itself; the wildcard `.` matches every character except a line
terminator. -/
def atomMatches (a : RegexAtom) (c : Char) : Bool :=
  match a with
  | .lit d => c = d
  | .dot => !(c = '\n' || c = '\r' || c = '\u2028' || c = '\u2029')

/-- Whether the atom sequence matches at the start of the text. -/
def atomsMatchHere : List RegexAtom → List Char → Bool
  | [], _ => true
  | _ :: _, [] => false
  | a :: ats, c :: cs => atomMatches a c && atomsMatchHere ats cs

/-- Leftmost non-overlapping matches of a nonempty atom pattern, the way JS
global-regex matching advances `lastIndex` past each match. After a match
the next `ats.length - 1` characters are inside the match and skipped. -/
def countRegexAux (ats : List RegexAtom) : List Char → Nat → Nat
  | [], _ => 0
  | c :: rest, skip =>
    match skip with
    | k + 1 => countRegexAux ats rest k
    | 0 =>
      if atomsMatchHere ats (c :: rest) then
        1 + countRegexAux ats rest (ats.length - 1)
      else
        countRegexAux ats rest 0

/-- `(searchText.match(new RegExp(term, "g")) || []).length`: the term is
used as a regex pattern — modelled for the fragment of literal characters
and the `.` wildcard, see `patAtoms` — and the count is the number of
leftmost non-overlapping matches; an empty pattern matches once at every
position, giving `text.length + 1`. -/
def matchCount (pat text : String) : Nat :=
  if pat.data = [] then text.length + 1
  else countRegexAux (patAtoms pat.data) text.data 0

/-- Auxiliary for `substringCountNonOverlap`, for a nonempty pattern:
leftmost non-overlapping literal substring occurrences. -/
def countOccsAux (pat : List Char) : List Char → Nat → Nat
  | [], _ => 0
  | c :: rest, skip =>
    match skip with
    | k + 1 => countOccsAux pat rest k
    | 0 =>
      if pat.isPrefixOf (c :: rest) then
        1 + countOccsAux pat rest (pat.length - 1)
      else
        countOccsAux pat rest 0

/-- The number of non-overlapping (leftmost) substring occurrences of `pat`
in `text` — the spec-side counting that `matchCount` reduces to on tokens
free of regex metacharacters; the empty pattern occurs once at every
position. -/
def substringCountNonOverlap (pat text : String) : Nat :=
  if pat.data = [] then text.length + 1
  else countOccsAux pat.data text.data 0

/-- Value of a hexadecimal digit, if the character is one. -/
def hexDigitVal (c : Char) : Option Nat :=
  if '0' ≤ c ∧ c ≤ '9' then some (c.toNat - '0'.toNat)
  else if 'a' ≤ c ∧ c ≤ 'f' then some (c.toNat - 'a'.toNat + 10)
  else if 'A' ≤ c ∧ c ≤ 'F' then some (c.toNat - 'A'.toNat + 10)
  else none

/-- JS `parseInt(s)` with no radix argument: skip leading whitespace, read an
optional sign, use hexadecimal after a `0x`/`0X` prefix and decimal
otherwise, parse the longest prefix of digits and ignore everything after
it; `none` models `NaN` (no digits). -/
def jsParseInt (s : String) : Option Int :=
  let cs := s.data.dropWhile Char.isWhitespace
  let signed : Int × List Char :=
    match cs with
    | '-' :: r => (-1, r)
    | '+' :: r => (1, r)
    | r => (1, r)
  match signed.2 with
  | '0' :: 'x' :: r | '0' :: 'X' :: r =>
    let ds := r.takeWhile (fun c => (hexDigitVal c).isSome)
    if ds = [] then none
    else some (signed.1 * (ds.foldl (fun n c => n * 16 + ((hexDigitVal c).getD 0)) 0 : Nat))
  | r =>
    let ds := r.takeWhile Char.isDigit
    if ds = [] then none
    else some (signed.1 * (ds.foldl (fun n c => n * 10 + (c.toNat - '0'.toNat)) 0 : Nat))

/-- An article as stored by the engine. `createdAt` is the creation time as
a numeric timestamp (the code stores `new Date().toISOString()` and compares
dates numerically when sorting). -/
structure Article where
  id : JsNum
  title : String
  content : String
  tags : List String
  createdAt : Nat
deriving DecidableEq, Repr

/-- A search result: the spread copy `{...article, relevanceScore}` built by
`searchArticles` — a fresh object carrying the article's fields plus the
computed score. -/
structure ScoredArticle where
  id : JsNum
  title : String
  content : String
  tags : List String
  createdAt : Nat
  relevanceScore : Nat
deriving DecidableEq, Repr

/-- The spread copy of an article decorated with a relevance score. -/
def mkScored (a : Article) (score : Nat) : ScoredArticle :=
  ⟨a.id, a.title, a.content, a.tags, a.createdAt, score⟩

/-- A JS object used as a map from strings to arrays of ids, modelled as an
association list in insertion order. -/
abbrev Buckets := List (String × List JsNum)

/-- `index[key] || []`: the bucket of a key, or the empty array. -/
def bucketGet (m : Buckets) (k : String) : List JsNum :=
  match m.find? (fun p => p.1 = k) with
  | some p => p.2
  | none => []

/-- `if (!index[key]) index[key] = []; index[key].push(id)`. -/
def bucketPush (m : Buckets) (k : String) (id : JsNum) : Buckets :=
  match m with
  | [] => [(k, [id])]
  | (k₀, v) :: rest =>
    if k₀ = k then (k₀, v ++ [id]) :: rest
    else (k₀, v) :: bucketPush rest k id

/-- The engine's inverted index: `this.index = { keywords: {}, tags: {} }`. -/
structure SearchIndex where
  keywords : Buckets
  tags : Buckets
deriving DecidableEq, Repr

/-- The `MiniSearchEngine` state: articles in insertion order, the inverted
index, and the next-identifier counter. -/
structure Engine where
  articles : List Article
  index : SearchIndex
  nextId : JsNum
deriving DecidableEq, Repr

/-- The state built by the `MiniSearchEngine` constructor: no articles,
empty index, `nextId = 1`. -/
def freshEngine : Engine := ⟨[], ⟨[], []⟩, .int 1⟩

/-- `calculateRelevance(article, searchTerms)`: lowercase
`title + " " + content`, then sum over the terms the global-regex match
count of the lowercased term. -/
def calculateRelevance (a : Article) (searchTerms : List String) : Nat :=
  let searchText := jsToLower (a.title ++ " " ++ a.content)
  searchTerms.foldl (fun score term => score + matchCount (jsToLower term) searchText) 0

/-- `indexArticle(article)`: push the article's id onto the keyword bucket
of every whitespace-split lowercase token of `title + " " + content`, and
onto the tag bucket of every lowercased tag. -/
def indexArticle (idx : SearchIndex) (a : Article) : SearchIndex :=
  let keywords := jsSplitWs (jsToLower (a.title ++ " " ++ a.content))
  let kw := keywords.foldl (fun m k => bucketPush m k a.id) idx.keywords
  let tg := a.tags.foldl (fun m t => bucketPush m (jsToLower t) a.id) idx.tags
  ⟨kw, tg⟩

/-- `addArticle(title, content, tags)`: build the article with id
`this.nextId++` and the current time, append it to the store, index it, and
return it. The `persistArticles()` call is a fire-and-forget write of the
snapshot (see `persistArticles`) whose failure does not affect the engine. -/
def addArticle (e : Engine) (title content : String) (tags : List String)
    (now : Nat) : Article × Engine :=
  let article : Article := ⟨e.nextId, title, content, tags, now⟩
  (article,
    ⟨e.articles ++ [article], indexArticle e.index article, jsAdd1 e.nextId⟩)

/-- `query.toLowerCase().split(/\s+/)` — the search terms of a query. -/
def searchTermsOf (query : String) : List String := jsSplitWs (jsToLower query)

/-- `Set.prototype.add`: append the element unless already present. -/
def setAdd (s : List JsNum) (id : JsNum) : List JsNum :=
  if s.contains id then s else s ++ [id]

/-- The `matchedIds` set of `searchArticles`: for every term, add every id
of the term's keyword bucket and tag bucket to the set. -/
def collectMatchedIds (e : Engine) (terms : List String) : List JsNum :=
  terms.foldl
    (fun s term =>
      (bucketGet e.index.keywords term ++ bucketGet e.index.tags term).foldl setAdd s)
    []

/-- The `results` list of `searchArticles` before sorting: the stored
articles whose id is in `matchedIds`, in store order, each decorated with
its relevance score. -/
def unsortedResults (e : Engine) (terms : List String) : List ScoredArticle :=
  (e.articles.filter (fun a => (collectMatchedIds e terms).contains a.id)).map
    (fun a => mkScored a (calculateRelevance a terms))

/-- The ordering induced by the comparator
`(a, b) => b.relevanceScore - a.relevanceScore`: `a` may precede `b` exactly
when the comparator is ≤ 0, i.e. descending by score. -/
def byScoreDesc (a b : ScoredArticle) : Prop := b.relevanceScore ≤ a.relevanceScore

instance : DecidableRel byScoreDesc := fun a b => Nat.decLe b.relevanceScore a.relevanceScore

instance : IsTotal ScoredArticle byScoreDesc :=
  ⟨fun a b => Nat.le_total b.relevanceScore a.relevanceScore⟩

instance : IsTrans ScoredArticle byScoreDesc :=
  ⟨fun _ _ _ hab hbc => Nat.le_trans hbc hab⟩

/-- The ordering induced by the comparator
`(a, b) => new Date(b.createdAt) - new Date(a.createdAt)`: descending by
creation timestamp. -/
def byDateDesc (a b : ScoredArticle) : Prop := b.createdAt ≤ a.createdAt

instance : DecidableRel byDateDesc := fun a b => Nat.decLe b.createdAt a.createdAt

instance : IsTotal ScoredArticle byDateDesc :=
  ⟨fun a b => Nat.le_total b.createdAt a.createdAt⟩

instance : IsTrans ScoredArticle byDateDesc :=
  ⟨fun _ _ _ hab hbc => Nat.le_trans hbc hab⟩

/-- `searchArticles(query, sortBy)`: tokenize the query, collect candidate
ids, filter and decorate the stored articles, then sort — descending by
score for `"relevance"`, descending by date for `"date"`, otherwise leave
the list as filtered. JS `Array.prototype.sort` is required to be a stable
comparator sort; it is modelled by the stable `List.insertionSort`. The
method reads but never writes engine state; the engine is returned
alongside the results to make that explicit. -/
def searchArticles (e : Engine) (query : String) (sortBy : String) :
    List ScoredArticle × Engine :=
  let searchTerms := searchTermsOf query
  let results := unsortedResults e searchTerms
  let sorted :=
    if sortBy = "relevance" then
      List.insertionSort byScoreDesc results
    else if sortBy = "date" then
      List.insertionSort byDateDesc results
    else results
  (sorted, e)

/-- `parseInt` applied to an argument that is already a JS number: the
number is converted to its decimal string and reparsed, which returns the
number itself for the integers in range here and `NaN` for `NaN`. -/
def parseIntOfNumber (v : Option Int) : Option Int := v

/-- JS strict equality `aid === v` between a stored identifier and a JS
number comparand (`none` playing `NaN`): false when the comparand is `NaN`
or the stored identifier is `-Infinity` while the comparand is finite. -/
def idStrictEq (aid : JsNum) (v : Option Int) : Bool :=
  match aid, v with
  | .int k, some m => k = m
  | _, _ => false

/-- `getArticle(id)`: linear scan for the first article whose id strictly
equals `parseInt(id)`. -/
def getArticle (e : Engine) (id : Option Int) : Option Article :=
  e.articles.find? (fun a => idStrictEq a.id (parseIntOfNumber id))

/-- `persistArticles()`: the snapshot written to disk is the full article
list (its JSON round-trips every field unchanged). -/
def persistArticles (e : Engine) : List Article := e.articles

/-- `loadArticles()` applied to a successfully read snapshot: replace the
article list, set `nextId = Math.max(...articles.map(a => a.id)) + 1`, and
rebuild the index from scratch. -/
def loadArticles (_e : Engine) (snapshot : List Article) : Engine :=
  let articles := snapshot
  let nextId := jsAdd1 (jsMaxList (articles.map (fun a => a.id)))
  let idx := articles.foldl indexArticle ⟨[], []⟩
  ⟨articles, idx, nextId⟩

/-- Response of `POST /articles`. -/
inductive PostResponse where
  | created (a : Article)
  | badRequest
deriving DecidableEq, Repr

/-- A string-valued JS request field is falsy exactly when absent,
`undefined`, or the empty string. -/
def jsFalsyStr : Option String → Bool
  | none => true
  | some s => s.data = []

/-- The `POST /articles` handler: `if (!title || !content)` respond 400
`Title and content are required` without touching the engine; otherwise add
the article (tags defaulting to `[]`) and respond 201 with it. -/
def postArticlesHandler (e : Engine) (title content : Option String)
    (tags : Option (List String)) (now : Nat) : PostResponse × Engine :=
  if jsFalsyStr title || jsFalsyStr content then
    (.badRequest, e)
  else
    let r := addArticle e (title.getD "") (content.getD "") (tags.getD []) now
    (.created r.1, r.2)

/-- Response of `GET /articles/:id`: 200 with the article, or 404 with
`error: Article not found`. -/
inductive GetResponse where
  | ok (a : Article)
  | notFound
deriving DecidableEq, Repr

/-- The `GET /articles/:id` handler: `getArticle(parseInt(req.params.id))`,
404 when it finds nothing. -/
def getArticleHandler (e : Engine) (idParam : String) : GetResponse :=
  match getArticle e (jsParseInt idParam) with
  | some a => .ok a
  | none => .notFound

/-- Repeated successful adds: fold `addArticle` over a list of
(title, content, tags, timestamp) requests. -/
def addMany (e : Engine) (reqs : List (String × String × List String × Nat)) : Engine :=
  reqs.foldl (fun e r => (addArticle e r.1 r.2.1 r.2.2.1 r.2.2.2).2) e

/-- Modelled from the spec's words for comparison with `calculateRelevance`
(claim C1): the number of possibly overlapping occurrences of `pat` in
`text` — the number of positions at which `pat` is a prefix of the rest. -/
def countOverlapOcc (pat text : List Char) : Nat :=
  ((List.range (text.length + 1)).filter (fun i => pat.isPrefixOf (text.drop i))).length

/-- Modelled from the spec's words (claim C1): relevance as the sum over
query tokens of the possibly overlapping, case-insensitive substring
occurrences of the token in `title + " " + content`. -/
def specRelevanceOverlap (a : Article) (terms : List String) : Nat :=
  (terms.map (fun t =>
    countOverlapOcc (jsToLower t).data (jsToLower (a.title ++ " " ++ a.content)).data)).sum

/-- Relevance as the sum over query tokens of the non-overlapping,
case-insensitive substring occurrences of the token in
`title + " " + content` — the amended reading of claim C1, which the
engine's regex count realizes exactly on tokens free of regex
metacharacters. -/
def specRelevanceNonOverlap (a : Article) (terms : List String) : Nat :=
  (terms.map (fun t =>
    substringCountNonOverlap (jsToLower t) (jsToLower (a.title ++ " " ++ a.content)))).sum

/-- Engine holding the single article `"aaa" / "b"`, used to evaluate the
relevance count on a self-overlapping token. -/
def engineAaa : Engine := (addArticle freshEngine "aaa" "b" [] 0).2

/-- Engine holding the single article `"c.t" / "cat"`, used to evaluate a
query token containing the regex metacharacter `.`. -/
def engineCdotT : Engine := (addArticle freshEngine "c.t" "cat" [] 0).2

/-- Engine holding the single article `"a" / "b"`, used to evaluate a query
with leading whitespace. -/
def engineAB : Engine := (addArticle freshEngine "a" "b" [] 0).2

/-- Engine holding the single article `"t" / "c"` with identifier 1, used to
evaluate `GET /articles/:id` on a non-integer id string. -/
def engineTC : Engine := (addArticle freshEngine "t" "c" [] 0).2

/-- Strict order on stored identifiers: both are integers and the first is
smaller. -/
def idLt : JsNum → JsNum → Prop
  | .int m, .int k => m < k
  | _, _ => False

/-! ### Bucket lemmas -/

theorem bucketGet_nil (k : String) : bucketGet [] k = [] := rfl

theorem bucketGet_cons (k₀ : String) (v : List JsNum) (rest : Buckets) (k : String) :
    bucketGet ((k₀, v) :: rest) k = if k₀ = k then v else bucketGet rest k := by
  unfold bucketGet
  rw [List.find?_cons]
  by_cases h : k₀ = k
  · simp [h]
  · simp [h]

theorem bucketPush_cons (k₀ : String) (v : List JsNum) (rest : Buckets)
    (k : String) (id : JsNum) :
    bucketPush ((k₀, v) :: rest) k id =
      if k₀ = k then (k₀, v ++ [id]) :: rest else (k₀, v) :: bucketPush rest k id := rfl

theorem bucketGet_bucketPush_self (m : Buckets) (k : String) (id : JsNum) :
    bucketGet (bucketPush m k id) k = bucketGet m k ++ [id] := by
  induction m with
  | nil => simp [bucketPush, bucketGet_cons, bucketGet_nil]
  | cons p rest ih =>
    obtain ⟨k₀, v⟩ := p
    rw [bucketPush_cons]
    by_cases h : k₀ = k
    · subst h
      simp [bucketGet_cons]
    · simp [bucketGet_cons, h, ih]

theorem bucketGet_bucketPush_of_ne (m : Buckets) {k t : String} (id : JsNum)
    (h : t ≠ k) : bucketGet (bucketPush m k id) t = bucketGet m t := by
  have hkt : ¬(k = t) := fun hh => h hh.symm
  induction m with
  | nil =>
    rw [show bucketPush [] k id = [(k, [id])] from rfl, bucketGet_cons,
      if_neg hkt, bucketGet_nil]
  | cons p rest ih =>
    obtain ⟨k₀, v⟩ := p
    rw [bucketPush_cons]
    by_cases h₀ : k₀ = k
    · subst h₀
      rw [if_pos rfl, bucketGet_cons, bucketGet_cons, if_neg hkt, if_neg hkt]
    · rw [if_neg h₀, bucketGet_cons, bucketGet_cons]
      by_cases h₁ : k₀ = t
      · rw [if_pos h₁, if_pos h₁]
      · rw [if_neg h₁, if_neg h₁, ih]

theorem mem_bucketGet_bucketPush {m : Buckets} {t : String} {x : JsNum}
    (k : String) (id : JsNum) (h : x ∈ bucketGet m t) :
    x ∈ bucketGet (bucketPush m k id) t := by
  by_cases hk : t = k
  · subst hk
    rw [bucketGet_bucketPush_self]
    exact List.mem_append_left _ h
  · rwa [bucketGet_bucketPush_of_ne m id hk]

theorem mem_bucketGet_foldlPush_of_mem {α : Type} (g : α → String) (id : JsNum)
    (ks : List α) :
    ∀ (m : Buckets) {t : String} {x : JsNum}, x ∈ bucketGet m t →
      x ∈ bucketGet (ks.foldl (fun m k => bucketPush m (g k) id) m) t := by
  induction ks with
  | nil => exact fun m _ _ h => h
  | cons a ks ih =>
    intro m t x h
    exact ih _ (mem_bucketGet_bucketPush (g a) id h)

theorem mem_bucketGet_foldlPush {α : Type} (g : α → String) (id : JsNum)
    (ks : List α) :
    ∀ (m : Buckets) {t : α}, t ∈ ks →
      id ∈ bucketGet (ks.foldl (fun m k => bucketPush m (g k) id) m) (g t) := by
  induction ks with
  | nil =>
    intro m t h
    cases h
  | cons a ks ih =>
    intro m t h
    rcases List.mem_cons.mp h with h | h
    · subst h
      refine mem_bucketGet_foldlPush_of_mem g id ks _ ?_
      rw [bucketGet_bucketPush_self]
      exact List.mem_append_right _ (List.mem_singleton.mpr rfl)
    · exact ih _ h

/-! ### Set lemmas -/

theorem setAdd_eq_of_mem {s : List JsNum} {x : JsNum} (hx : x ∈ s) :
    setAdd s x = s := by
  simp [setAdd, hx]

theorem setAdd_eq_of_not_mem {s : List JsNum} {x : JsNum} (hx : x ∉ s) :
    setAdd s x = s ++ [x] := by
  simp [setAdd, hx]

theorem mem_setAdd {s : List JsNum} {x y : JsNum} :
    y ∈ setAdd s x ↔ y ∈ s ∨ y = x := by
  by_cases hx : x ∈ s
  · rw [setAdd_eq_of_mem hx]
    constructor
    · exact Or.inl
    · rintro (hy | rfl)
      · exact hy
      · exact hx
  · rw [setAdd_eq_of_not_mem hx]
    simp

theorem nodup_setAdd {s : List JsNum} (x : JsNum) (h : s.Nodup) :
    (setAdd s x).Nodup := by
  by_cases hx : x ∈ s
  · rwa [setAdd_eq_of_mem hx]
  · rw [setAdd_eq_of_not_mem hx]
    simp [List.nodup_append, h, hx]

theorem mem_foldl_setAdd (l : List JsNum) :
    ∀ (s : List JsNum) (x : JsNum), x ∈ l.foldl setAdd s ↔ x ∈ s ∨ x ∈ l := by
  induction l with
  | nil => simp
  | cons a l ih =>
    intro s x
    rw [List.foldl_cons, ih, mem_setAdd]
    simp only [List.mem_cons]
    tauto

theorem nodup_foldl_setAdd (l : List JsNum) :
    ∀ (s : List JsNum), s.Nodup → (l.foldl setAdd s).Nodup := by
  induction l with
  | nil => exact fun _ h => h
  | cons a l ih => exact fun s h => ih _ (nodup_setAdd a h)

/-! ### Candidate-collection lemmas -/

theorem mem_foldl_collectStep (e : Engine) (terms : List String) :
    ∀ (s : List JsNum) (x : JsNum),
      x ∈ terms.foldl (fun s term =>
        (bucketGet e.index.keywords term ++ bucketGet e.index.tags term).foldl setAdd s) s ↔
      x ∈ s ∨ ∃ t ∈ terms,
        x ∈ bucketGet e.index.keywords t ∨ x ∈ bucketGet e.index.tags t := by
  induction terms with
  | nil => simp
  | cons a terms ih =>
    intro s x
    rw [List.foldl_cons, ih, mem_foldl_setAdd, List.mem_append]
    constructor
    · rintro ((hs | hk) | ⟨t, ht, hp⟩)
      · exact Or.inl hs
      · exact Or.inr ⟨a, List.mem_cons_self a terms, hk⟩
      · exact Or.inr ⟨t, List.mem_cons_of_mem a ht, hp⟩
    · rintro (hs | ⟨t, ht, hp⟩)
      · exact Or.inl (Or.inl hs)
      · rcases List.mem_cons.mp ht with rfl | ht
        · exact Or.inl (Or.inr hp)
        · exact Or.inr ⟨t, ht, hp⟩

theorem mem_collectMatchedIds (e : Engine) (terms : List String) (x : JsNum) :
    x ∈ collectMatchedIds e terms ↔
      ∃ t ∈ terms, x ∈ bucketGet e.index.keywords t ∨ x ∈ bucketGet e.index.tags t := by
  unfold collectMatchedIds
  rw [mem_foldl_collectStep]
  simp

theorem nodup_collectMatchedIds (e : Engine) (terms : List String) :
    (collectMatchedIds e terms).Nodup := by
  unfold collectMatchedIds
  generalize hs : ([] : List JsNum) = s
  have hnd : s.Nodup := by rw [← hs]; exact List.nodup_nil
  clear hs
  induction terms generalizing s with
  | nil => exact hnd
  | cons a terms ih => exact ih _ (nodup_foldl_setAdd _ _ hnd)

/-! ### Relevance lemmas -/

theorem foldl_add_eq_sum {α : Type} (f : α → Nat) (l : List α) :
    ∀ n : Nat, l.foldl (fun s t => s + f t) n = n + (l.map f).sum := by
  induction l with
  | nil => simp
  | cons a l ih =>
    intro n
    rw [List.foldl_cons, ih, List.map_cons, List.sum_cons]
    omega

theorem atomsMatchHere_map_lit (pat : List Char) :
    ∀ s : List Char, atomsMatchHere (pat.map RegexAtom.lit) s = pat.isPrefixOf s := by
  induction pat with
  | nil =>
    intro s
    simp [atomsMatchHere, List.isPrefixOf]
  | cons c cs ih =>
    intro s
    cases s with
    | nil => simp [List.map_cons, atomsMatchHere, List.isPrefixOf]
    | cons d ds =>
      simp only [List.map_cons, atomsMatchHere, List.isPrefixOf]
      rw [ih ds]
      by_cases h : c = d
      · subst h
        simp [atomMatches]
      · have h2 : ¬ d = c := fun hh => h hh.symm
        simp [atomMatches, h, h2]

theorem countRegexAux_map_lit (pat : List Char) :
    ∀ (s : List Char) (skip : Nat),
      countRegexAux (pat.map RegexAtom.lit) s skip = countOccsAux pat s skip := by
  intro s
  induction s with
  | nil => intro skip; rfl
  | cons c rest ih =>
    intro skip
    cases skip with
    | succ k =>
      simp only [countRegexAux, countOccsAux]
      exact ih k
    | zero =>
      simp only [countRegexAux, countOccsAux]
      rw [atomsMatchHere_map_lit, List.length_map, ih, ih]

theorem patAtoms_of_literal (pat : List Char)
    (h : ∀ c ∈ pat, regexMetaChars.contains c = false) :
    patAtoms pat = pat.map RegexAtom.lit := by
  unfold patAtoms
  refine List.map_congr_left ?_
  intro c hc
  have hdot : ¬ c = '.' := by
    intro hd
    have h1 := h c hc
    rw [hd] at h1
    have h2 : regexMetaChars.contains '.' = true := by decide
    rw [h1] at h2
    cases h2
  simp [hdot]

theorem matchCount_eq_substringCount (t text : String)
    (h : regexLiteralToken t = true) :
    matchCount t text = substringCountNonOverlap t text := by
  unfold matchCount substringCountNonOverlap
  by_cases he : t.data = []
  · rw [if_pos he, if_pos he]
  · rw [if_neg he, if_neg he]
    have hmeta : ∀ c ∈ t.data, regexMetaChars.contains c = false := by
      intro c hc
      unfold regexLiteralToken at h
      have hall := List.all_eq_true.mp h c hc
      simpa using hall
    rw [patAtoms_of_literal t.data hmeta, countRegexAux_map_lit]

theorem calculateRelevance_eq_specNonOverlap (a : Article) (terms : List String)
    (h : ∀ t ∈ terms, regexLiteralToken (jsToLower t) = true) :
    calculateRelevance a terms = specRelevanceNonOverlap a terms := by
  unfold calculateRelevance specRelevanceNonOverlap
  rw [foldl_add_eq_sum]
  have hmap : terms.map
      (fun term => matchCount (jsToLower term) (jsToLower (a.title ++ " " ++ a.content))) =
      terms.map
      (fun t => substringCountNonOverlap (jsToLower t) (jsToLower (a.title ++ " " ++ a.content))) :=
    List.map_congr_left (fun t ht => matchCount_eq_substringCount (jsToLower t) _ (h t ht))
  rw [hmap]
  omega

/-! ### Search lemmas -/

theorem searchArticles_snd (e : Engine) (q sortBy : String) :
    (searchArticles e q sortBy).2 = e := rfl

theorem searchArticles_fst_relevance (e : Engine) (q : String) :
    (searchArticles e q "relevance").1 =
      List.insertionSort byScoreDesc (unsortedResults e (searchTermsOf q)) := by
  simp [searchArticles]

theorem searchArticles_fst_date (e : Engine) (q : String) :
    (searchArticles e q "date").1 =
      List.insertionSort byDateDesc (unsortedResults e (searchTermsOf q)) := by
  simp [searchArticles]

theorem searchArticles_fst_other (e : Engine) (q : String) {sortBy : String}
    (h₁ : sortBy ≠ "relevance") (h₂ : sortBy ≠ "date") :
    (searchArticles e q sortBy).1 = unsortedResults e (searchTermsOf q) := by
  simp [searchArticles, h₁, h₂]

theorem mem_unsortedResults (e : Engine) (terms : List String) (r : ScoredArticle) :
    r ∈ unsortedResults e terms ↔
      ∃ a, a ∈ e.articles ∧ a.id ∈ collectMatchedIds e terms ∧
        r = mkScored a (calculateRelevance a terms) := by
  unfold unsortedResults
  simp only [List.mem_map, List.mem_filter]
  constructor
  · rintro ⟨a, ⟨ha, hc⟩, rfl⟩
    exact ⟨a, ha, by simpa using hc, rfl⟩
  · rintro ⟨a, ha, hc, rfl⟩
    exact ⟨a, ⟨ha, by simpa using hc⟩, rfl⟩

theorem mem_searchArticles (e : Engine) (q sortBy : String) (r : ScoredArticle) :
    r ∈ (searchArticles e q sortBy).1 ↔ r ∈ unsortedResults e (searchTermsOf q) := by
  by_cases h₁ : sortBy = "relevance"
  · subst h₁
    rw [searchArticles_fst_relevance]
    exact List.mem_insertionSort byScoreDesc
  · by_cases h₂ : sortBy = "date"
    · subst h₂
      rw [searchArticles_fst_date]
      exact List.mem_insertionSort byDateDesc
    · rw [searchArticles_fst_other e q h₁ h₂]

/-! ### `Math.max` lemmas -/

theorem foldl_jsMax_int (l : List Int) :
    ∀ a : Int, (l.map JsNum.int).foldl jsMax (JsNum.int a) = JsNum.int (l.foldl max a) := by
  induction l with
  | nil => intro a; rfl
  | cons x l ih =>
    intro a
    rw [List.map_cons, List.foldl_cons, List.foldl_cons]
    exact ih (max a x)

theorem foldl_max_base_le (l : List Int) : ∀ a : Int, a ≤ l.foldl max a := by
  induction l with
  | nil => intro a; exact le_refl a
  | cons x l ih =>
    intro a
    exact le_trans (le_max_left a x) (ih (max a x))

theorem foldl_max_mem_or (l : List Int) :
    ∀ a : Int, l.foldl max a = a ∨ l.foldl max a ∈ l := by
  induction l with
  | nil => intro a; exact Or.inl rfl
  | cons x l ih =>
    intro a
    rcases ih (max a x) with h | h
    · rcases max_choice a x with hm | hm
      · rw [List.foldl_cons, h, hm]
        exact Or.inl rfl
      · rw [List.foldl_cons, h, hm]
        exact Or.inr (List.mem_cons_self x l)
    · exact Or.inr (List.mem_cons_of_mem x h)

theorem le_foldl_max (l : List Int) :
    ∀ (a : Int), ∀ x ∈ l, x ≤ l.foldl max a := by
  induction l with
  | nil =>
    intro a x hx
    cases hx
  | cons y l ih =>
    intro a x hx
    rcases List.mem_cons.mp hx with rfl | hx
    · exact le_trans (le_max_right a x) (foldl_max_base_le l (max a x))
    · exact ih (max a y) x hx

theorem jsMaxList_ofInts (ids : List Int) (h : ids ≠ []) :
    ∃ M : Int, jsMaxList (ids.map JsNum.int) = JsNum.int M ∧ M ∈ ids ∧
      ∀ x ∈ ids, x ≤ M := by
  cases ids with
  | nil => exact absurd rfl h
  | cons a l =>
    refine ⟨l.foldl max a, ?_, ?_, ?_⟩
    · unfold jsMaxList
      rw [List.map_cons, List.foldl_cons]
      exact foldl_jsMax_int l a
    · rcases foldl_max_mem_or l a with hm | hm
      · rw [hm]
        exact List.mem_cons_self a l
      · exact List.mem_cons_of_mem a hm
    · intro x hx
      rcases List.mem_cons.mp hx with rfl | hx
      · exact foldl_max_base_le l x
      · exact le_foldl_max l a x hx

/-! ### Identifier-assignment lemmas -/

theorem addMany_articles_ids (reqs : List (String × String × List String × Nat)) :
    ∀ (e : Engine) (n : Int), e.nextId = .int n →
      (addMany e reqs).articles.map (fun a => a.id) =
        e.articles.map (fun a => a.id) ++
          (List.range reqs.length).map (fun i : Nat => JsNum.int (n + (i : Int))) := by
  induction reqs with
  | nil =>
    intro e n _
    simp [addMany]
  | cons r reqs ih =>
    intro e n h
    have hstep : addMany e (r :: reqs) =
        addMany (addArticle e r.1 r.2.1 r.2.2.1 r.2.2.2).2 reqs := rfl
    have hnext : (addArticle e r.1 r.2.1 r.2.2.1 r.2.2.2).2.nextId = .int (n + 1) := by
      simp [addArticle, h, jsAdd1]
    rw [hstep, ih _ (n + 1) hnext]
    have harts : (addArticle e r.1 r.2.1 r.2.2.1 r.2.2.2).2.articles =
        e.articles ++ [⟨.int n, r.1, r.2.1, r.2.2.1, r.2.2.2⟩] := by
      simp [addArticle, h]
    rw [harts, List.map_append, List.length_cons, List.range_succ_eq_map]
    simp only [List.map_cons, List.map_nil, List.map_map, List.append_assoc,
      List.singleton_append]
    congr 1
    congr 1
    · simp
    · refine List.map_congr_left ?_
      intro i _
      show JsNum.int (n + 1 + (i : Int)) = JsNum.int (n + ((i + 1 : Nat) : Int))
      congr 1
      push_cast
      ring

/-! ### Claim C1 -/

/-- C1 (counterexample): the claim fails in two independent ways. First,
the global regex advances past each match, so occurrences are counted
non-overlapping: on the article `"aaa" / "b"` and the query `"aa aaa"` the
engine scores 2, while the claimed possibly-overlapping substring count is
3. Second, the token is used as a regex pattern, not as a substring: on the
article `"c.t" / "cat"` and the query `"c.t"` the engine scores 2 — the dot
matches the `a` of `"cat"` — while the claimed substring count, overlapping
or not, is 1. -/
theorem C1_counterexample :
    ((searchArticles engineAaa "aa aaa" "relevance").1.map (fun r => r.relevanceScore) = [2] ∧
      specRelevanceOverlap ⟨.int 1, "aaa", "b", [], 0⟩ (searchTermsOf "aa aaa") = 3) ∧
    ((searchArticles engineCdotT "c.t" "relevance").1.map (fun r => r.relevanceScore) = [2] ∧
      specRelevanceOverlap ⟨.int 1, "c.t", "cat", [], 0⟩ (searchTermsOf "c.t") = 1) := by
  decide

/-- C1 (amended): for every candidate article and every query whose tokens
are free of regex metacharacters, the relevance score computed by search
equals the sum, over all query tokens, of the number of non-overlapping
(leftmost, case-insensitive) substring occurrences of the token within
`title + " " + content`. The token is used as a regex pattern, so a token
containing metacharacters is matched as a regular expression instead of as
a substring, and occurrences are counted non-overlapping, not possibly
overlapping. -/
theorem C1_relevance_nonoverlapping_sum (e : Engine) (q sortBy : String)
    (r : ScoredArticle) (hr : r ∈ (searchArticles e q sortBy).1)
    (hlit : ∀ t ∈ searchTermsOf q, regexLiteralToken (jsToLower t) = true) :
    ∃ a ∈ e.articles, r = mkScored a (calculateRelevance a (searchTermsOf q)) ∧
      r.relevanceScore = specRelevanceNonOverlap a (searchTermsOf q) := by
  rcases (mem_unsortedResults e (searchTermsOf q) r).mp
      ((mem_searchArticles e q sortBy r).mp hr) with ⟨a, ha, _, rfl⟩
  refine ⟨a, ha, rfl, ?_⟩
  show calculateRelevance a (searchTermsOf q) = specRelevanceNonOverlap a (searchTermsOf q)
  exact calculateRelevance_eq_specNonOverlap a (searchTermsOf q) hlit

/-- C1 witness: the amended theorem applied to the search of `"aa aaa"` —
whose tokens are metacharacter-free — over the engine holding the article
`"aaa" / "b"`. -/
theorem C1_relevance_nonoverlapping_sum_witness :
    ∃ a ∈ engineAaa.articles,
      mkScored ⟨.int 1, "aaa", "b", [], 0⟩ 2 =
        mkScored a (calculateRelevance a (searchTermsOf "aa aaa")) ∧
      (mkScored ⟨.int 1, "aaa", "b", [], 0⟩ 2).relevanceScore =
        specRelevanceNonOverlap a (searchTermsOf "aa aaa") :=
  C1_relevance_nonoverlapping_sum engineAaa "aa aaa" "relevance"
    (mkScored ⟨.int 1, "aaa", "b", [], 0⟩ 2) (by decide) (by decide)

/-! ### Claim C2 -/

/-- C2: for every query and engine state, the candidate set is the
duplicate-free union, over the query tokens, of the token's keyword bucket
and tag bucket, and every stored article whose identifier is in the
candidate set appears in the returned result list — no score threshold, no
minimum-match requirement, no pagination. -/
theorem C2_candidate_collection (e : Engine) (q sortBy : String) :
    (collectMatchedIds e (searchTermsOf q)).Nodup ∧
    (∀ x : JsNum, x ∈ collectMatchedIds e (searchTermsOf q) ↔
      ∃ t ∈ searchTermsOf q,
        x ∈ bucketGet e.index.keywords t ∨ x ∈ bucketGet e.index.tags t) ∧
    (∀ a ∈ e.articles, a.id ∈ collectMatchedIds e (searchTermsOf q) →
      ∃ r ∈ (searchArticles e q sortBy).1,
        r = mkScored a (calculateRelevance a (searchTermsOf q))) := by
  refine ⟨nodup_collectMatchedIds e _, fun x => mem_collectMatchedIds e _ x, ?_⟩
  intro a ha hid
  refine ⟨mkScored a (calculateRelevance a (searchTermsOf q)), ?_, rfl⟩
  rw [mem_searchArticles, mem_unsortedResults]
  exact ⟨a, ha, hid, rfl⟩

/-- C2 witness: in the two-article engine, the article matching only via
its indexed token is returned by the search. -/
theorem C2_candidate_collection_witness :
    ∃ r ∈ (searchArticles engineAaa "aa aaa" "relevance").1,
      r = mkScored ⟨.int 1, "aaa", "b", [], 0⟩
        (calculateRelevance ⟨.int 1, "aaa", "b", [], 0⟩ (searchTermsOf "aa aaa")) :=
  (C2_candidate_collection engineAaa "aa aaa" "relevance").2.2
    ⟨.int 1, "aaa", "b", [], 0⟩ (by decide) (by decide)

/-! ### Claim C3 -/

/-- C3: after any add operation, every whitespace-delimited lowercase token
of the new article's `title + " " + content` has the article's identifier in
its keyword bucket, and every lowercased tag has it in its tag bucket. -/
theorem C3_add_indexes_tokens (e : Engine) (title content : String)
    (tags : List String) (now : Nat) :
    (∀ t ∈ jsSplitWs (jsToLower (title ++ " " ++ content)),
      (addArticle e title content tags now).1.id ∈
        bucketGet (addArticle e title content tags now).2.index.keywords t) ∧
    (∀ tg ∈ tags,
      (addArticle e title content tags now).1.id ∈
        bucketGet (addArticle e title content tags now).2.index.tags (jsToLower tg)) := by
  constructor
  · intro t ht
    exact mem_bucketGet_foldlPush (fun k => k) e.nextId _ _ ht
  · intro tg htg
    exact mem_bucketGet_foldlPush jsToLower e.nextId _ _ htg

/-- C3 witness: adding the article `"Cats and Dogs" / "Cats are great
pets"` with tag `"Pets"` indexes the token `"cats"` and the lowercased tag
`"pets"` with its identifier. -/
theorem C3_add_indexes_tokens_witness :
    (addArticle freshEngine "Cats and Dogs" "Cats are great pets" ["Pets"] 0).1.id ∈
      bucketGet
        (addArticle freshEngine "Cats and Dogs" "Cats are great pets" ["Pets"] 0).2.index.keywords
        "cats" ∧
    (addArticle freshEngine "Cats and Dogs" "Cats are great pets" ["Pets"] 0).1.id ∈
      bucketGet
        (addArticle freshEngine "Cats and Dogs" "Cats are great pets" ["Pets"] 0).2.index.tags
        (jsToLower "Pets") :=
  ⟨(C3_add_indexes_tokens freshEngine "Cats and Dogs" "Cats are great pets" ["Pets"] 0).1
      "cats" (by decide),
   (C3_add_indexes_tokens freshEngine "Cats and Dogs" "Cats are great pets" ["Pets"] 0).2
      "Pets" (by decide)⟩

/-! ### Claim C4 -/

/-- C4: when `sortBy` is `"relevance"` the result list is ordered descending
by relevance score (ties in whatever order the sort produces), when it is
`"date"` descending by creation timestamp, and for any other value the list
is returned in the unsorted candidate-filter (store) order; in the two
sorted cases the list is a permutation of the unsorted one. -/
theorem C4_sorting (e : Engine) (q : String) :
    ((searchArticles e q "relevance").1.Pairwise byScoreDesc ∧
      (searchArticles e q "relevance").1.Perm (unsortedResults e (searchTermsOf q))) ∧
    ((searchArticles e q "date").1.Pairwise byDateDesc ∧
      (searchArticles e q "date").1.Perm (unsortedResults e (searchTermsOf q))) ∧
    (∀ sortBy : String, sortBy ≠ "relevance" → sortBy ≠ "date" →
      (searchArticles e q sortBy).1 = unsortedResults e (searchTermsOf q)) := by
  refine ⟨⟨?_, ?_⟩, ⟨?_, ?_⟩, ?_⟩
  · rw [searchArticles_fst_relevance]
    exact List.sorted_insertionSort byScoreDesc _
  · rw [searchArticles_fst_relevance]
    exact List.perm_insertionSort byScoreDesc _
  · rw [searchArticles_fst_date]
    exact List.sorted_insertionSort byDateDesc _
  · rw [searchArticles_fst_date]
    exact List.perm_insertionSort byDateDesc _
  · exact fun sortBy h₁ h₂ => searchArticles_fst_other e q h₁ h₂

/-- C4 witness: an unrecognized `sortBy` value returns the candidate-filter
order unchanged. -/
theorem C4_sorting_witness :
    (searchArticles engineAaa "aa aaa" "score").1 =
      unsortedResults engineAaa (searchTermsOf "aa aaa") :=
  (C4_sorting engineAaa "aa aaa").2.2 "score" (by decide) (by decide)

/-! ### Claim C5 -/

/-- C5: a `POST /articles` request whose title or content is absent or empty
is answered with the 400 response and leaves the engine unchanged: no
article is created and the next-identifier counter is not incremented. -/
theorem C5_validation_rejects (e : Engine) (title content : Option String)
    (tags : Option (List String)) (now : Nat)
    (h : title = none ∨ title = some "" ∨ content = none ∨ content = some "") :
    postArticlesHandler e title content tags now = (.badRequest, e) := by
  rcases h with rfl | rfl | rfl | rfl <;> simp [postArticlesHandler, jsFalsyStr]

/-- C5 witness: an empty title is rejected and the fresh engine is left
untouched. -/
theorem C5_validation_rejects_witness :
    postArticlesHandler freshEngine (some "") (some "body") none 0 =
      (.badRequest, freshEngine) :=
  C5_validation_rejects freshEngine (some "") (some "body") none 0
    (Or.inr (Or.inl rfl))

/-! ### Claim C6 -/

/-- C6 (counterexample): persisting an empty store and loading the snapshot
into a fresh store sets the next-identifier counter to `-Infinity` — JS
`Math.max()` of no arguments — not to 1 as the claim states. -/
theorem C6_counterexample :
    (loadArticles freshEngine (persistArticles freshEngine)).nextId = JsNum.negInf ∧
    JsNum.negInf ≠ JsNum.int 1 := by
  decide

/-- C6 (amended): persisting a store and loading the snapshot into a fresh
store yields the same articles with identical fields; when the store is
nonempty (its identifiers being integers) the next-identifier counter
becomes the maximum identifier plus one, but when the store is empty it
becomes `-Infinity`, not 1. -/
theorem C6_roundtrip (e : Engine) :
    (loadArticles freshEngine (persistArticles e)).articles = e.articles ∧
    (e.articles = [] →
      (loadArticles freshEngine (persistArticles e)).nextId = JsNum.negInf) ∧
    (∀ ids : List Int, e.articles.map (fun a => a.id) = ids.map JsNum.int →
      ids ≠ [] →
      ∃ M ∈ ids, (∀ x ∈ ids, x ≤ M) ∧
        (loadArticles freshEngine (persistArticles e)).nextId = JsNum.int (M + 1)) := by
  refine ⟨rfl, ?_, ?_⟩
  · intro h
    simp [loadArticles, persistArticles, h, jsMaxList, jsAdd1]
  · intro ids hmap hne
    rcases jsMaxList_ofInts ids hne with ⟨M, hM, hmem, hub⟩
    refine ⟨M, hmem, fun x hx => hub x hx, ?_⟩
    show jsAdd1 (jsMaxList ((persistArticles e).map (fun a => a.id))) = JsNum.int (M + 1)
    rw [show persistArticles e = e.articles from rfl, hmap, hM]
    rfl

/-- C6 witness: the round trip of the one-article engine sets the counter
to 2 = max(1) + 1. -/
theorem C6_roundtrip_witness :
    ∃ M ∈ [(1 : Int)], (∀ x ∈ [(1 : Int)], x ≤ M) ∧
      (loadArticles freshEngine (persistArticles engineAaa)).nextId = JsNum.int (M + 1) :=
  (C6_roundtrip engineAaa).2.2 [1] (by decide) (by decide)

/-! ### Claim C7 -/

/-- C7 (counterexample): the claim says empty tokens are discarded, so a
query with leading whitespace would give the same results as the trimmed
query. On the engine holding the article `"a" / "b"`, the query `" a"`
scores 5 while `"a"` scores 1: the empty token produced by the leading
space matches at every position of the text. -/
theorem C7_counterexample :
    (searchArticles engineAB " a" "relevance").1 ≠
      (searchArticles engineAB "a" "relevance").1 ∧
    (searchArticles engineAB " a" "relevance").1.map (fun r => r.relevanceScore) = [5] ∧
    (searchArticles engineAB "a" "relevance").1.map (fun r => r.relevanceScore) = [1] := by
  decide

/-- C7 (amended): search tokenizes the query by lowercasing and splitting on
whitespace runs but does not discard the empty tokens that leading or
trailing whitespace produces — `searchTermsOf " a" = ["", "a"]` — and an
empty token participates in scoring, adding `title.length + content.length
+ 2` (the text length plus one) to every candidate's relevance score. -/
theorem C7_empty_tokens_participate :
    searchTermsOf " a" = ["", "a"] ∧
    ∀ (a : Article) (terms : List String),
      calculateRelevance a ("" :: terms) =
        (a.title.length + a.content.length + 2) + calculateRelevance a terms := by
  constructor
  · rfl
  · intro a terms
    unfold calculateRelevance
    rw [List.foldl_cons, foldl_add_eq_sum, foldl_add_eq_sum]
    have hm : matchCount (jsToLower "") (jsToLower (a.title ++ " " ++ a.content)) =
        a.title.length + a.content.length + 2 := by
      rw [show jsToLower "" = "" from rfl]
      rw [show matchCount "" (jsToLower (a.title ++ " " ++ a.content)) =
        (jsToLower (a.title ++ " " ++ a.content)).length + 1 from rfl]
      have hlen : ∀ s : String, (jsToLower s).length = s.length := by
        intro s
        show (s.data.map Char.toLower).length = s.data.length
        exact List.length_map s.data Char.toLower
      rw [hlen, String.length_append, String.length_append,
        show (" " : String).length = 1 from rfl]
      omega
    rw [hm]
    omega

/-! ### Claim C8 -/

/-- C8 (counterexample): the claim says an id path segment with trailing
non-digit characters does not resolve to an article. `parseInt("1abc")` is
1, so `GET /articles/1abc` on a store holding article 1 responds 200 with
that article, not 404. -/
theorem C8_counterexample :
    getArticleHandler engineTC "1abc" = GetResponse.ok ⟨.int 1, "t", "c", [], 0⟩ ∧
    jsParseInt "1abc" = some 1 := by
  decide

/-- C8 (amended): `GET /articles/:id` responds 404 when `parseInt` of the
id path segment is `NaN` or when no stored article's identifier equals the
parsed value, and responds 200 with a stored article of that identifier
when one exists — `parseInt` keeps only the longest leading integer prefix,
so trailing non-digit characters are ignored rather than causing a 404. -/
theorem C8_get_by_id (e : Engine) (idParam : String) :
    (jsParseInt idParam = none → getArticleHandler e idParam = .notFound) ∧
    (∀ n : Int, jsParseInt idParam = some n →
      ((∀ a ∈ e.articles, a.id ≠ JsNum.int n) →
        getArticleHandler e idParam = .notFound) ∧
      (∀ a ∈ e.articles, a.id = JsNum.int n →
        ∃ b ∈ e.articles, b.id = JsNum.int n ∧
          getArticleHandler e idParam = .ok b)) := by
  constructor
  · intro hp
    unfold getArticleHandler getArticle
    rw [hp]
    have hnone : e.articles.find?
        (fun a => idStrictEq a.id (parseIntOfNumber none)) = none := by
      rw [List.find?_eq_none]
      intro a _
      cases a.id <;> simp [idStrictEq, parseIntOfNumber]
    rw [hnone]
  · intro n hp
    constructor
    · intro hno
      unfold getArticleHandler getArticle
      rw [hp]
      have hnone : e.articles.find?
          (fun a => idStrictEq a.id (parseIntOfNumber (some n))) = none := by
        rw [List.find?_eq_none]
        intro a ha
        cases hid : a.id with
        | negInf => simp [idStrictEq, parseIntOfNumber]
        | int k =>
          have hk : k ≠ n := fun hkn => hno a ha (by rw [hid, hkn])
          simp [idStrictEq, parseIntOfNumber, hk]
      rw [hnone]
    · intro a ha hid
      cases hfind : e.articles.find?
          (fun a => idStrictEq a.id (parseIntOfNumber (some n))) with
      | none =>
        exfalso
        have hfa := List.find?_eq_none.mp hfind a ha
        rw [hid] at hfa
        simp [idStrictEq, parseIntOfNumber] at hfa
      | some b =>
        have hb : b ∈ e.articles := List.mem_of_find?_eq_some hfind
        have hpb := List.find?_some hfind
        have hbid : b.id = JsNum.int n := by
          cases hidb : b.id with
          | negInf =>
            rw [hidb] at hpb
            simp [idStrictEq, parseIntOfNumber] at hpb
          | int k =>
            rw [hidb] at hpb
            simp [idStrictEq, parseIntOfNumber] at hpb
            rw [hpb]
        refine ⟨b, hb, hbid, ?_⟩
        unfold getArticleHandler getArticle
        rw [hp, hfind]

/-- C8 witness: the amended theorem applied to the store holding article 1
and the id segment `"1abc"`, which resolves to article 1. -/
theorem C8_get_by_id_witness :
    ∃ b ∈ engineTC.articles, b.id = JsNum.int 1 ∧
      getArticleHandler engineTC "1abc" = .ok b :=
  ((C8_get_by_id engineTC "1abc").2 1 (by decide)).2
    ⟨.int 1, "t", "c", [], 0⟩ (by decide) rfl

/-! ### Claim C9 -/

/-- C9: in a fresh store, any sequence of successful adds assigns the
identifiers 1, 2, 3, … in order: the identifier list is exactly
`[1, …, N]`, is strictly increasing, and starts at 1 when nonempty. -/
theorem C9_ids_strictly_increasing (reqs : List (String × String × List String × Nat)) :
    (addMany freshEngine reqs).articles.map (fun a => a.id) =
      (List.range reqs.length).map (fun i : Nat => JsNum.int (1 + (i : Int))) ∧
    ((addMany freshEngine reqs).articles.map (fun a => a.id)).Pairwise idLt ∧
    (reqs ≠ [] →
      ((addMany freshEngine reqs).articles.map (fun a => a.id)).head? =
        some (JsNum.int 1)) := by
  have hids := addMany_articles_ids reqs freshEngine 1 rfl
  rw [show freshEngine.articles = [] from rfl, List.map_nil, List.nil_append] at hids
  refine ⟨hids, ?_, ?_⟩
  · rw [hids, List.pairwise_map]
    have hrange : (List.range reqs.length).Pairwise (· < ·) := List.pairwise_lt_range _
    refine hrange.imp ?_
    intro i j hij
    show idLt (JsNum.int (1 + (i : Int))) (JsNum.int (1 + (j : Int)))
    show (1 : Int) + (i : Int) < 1 + (j : Int)
    omega
  · intro hne
    rw [hids]
    cases hlen : reqs.length with
    | zero => exact absurd (List.length_eq_zero.mp hlen) hne
    | succ m =>
      rw [List.range_succ_eq_map, List.map_cons, List.head?_cons]
      norm_num

/-- C9 witness: three adds to a fresh store yield identifiers 1, 2, 3. -/
theorem C9_ids_strictly_increasing_witness :
    ((addMany freshEngine [("a", "b", [], 0), ("c", "d", [], 1), ("e", "f", [], 2)]).articles.map
        (fun a => a.id)).head? = some (JsNum.int 1) :=
  (C9_ids_strictly_increasing [("a", "b", [], 0), ("c", "d", [], 1), ("e", "f", [], 2)]).2.2
    (by decide)

/-! ### Claim C10 -/

/-- C10: search never changes the engine — the article list, keyword
mapping, tag mapping and next-identifier counter after the call equal those
before — and every returned result is a fresh `ScoredArticle` copy of a
stored article, so no stored `Article` ever carries a relevance score. -/
theorem C10_search_pure (e : Engine) (q sortBy : String) :
    (searchArticles e q sortBy).2 = e ∧
    ∀ r ∈ (searchArticles e q sortBy).1, ∃ a ∈ e.articles,
      r = mkScored a (calculateRelevance a (searchTermsOf q)) := by
  refine ⟨searchArticles_snd e q sortBy, ?_⟩
  intro r hr
  rcases (mem_unsortedResults e (searchTermsOf q) r).mp
      ((mem_searchArticles e q sortBy r).mp hr) with ⟨a, ha, _, rfl⟩
  exact ⟨a, ha, rfl⟩

/-- C10 witness: the single result of searching `"a"` on the one-article
engine is the decorated copy of the stored article. -/
theorem C10_search_pure_witness :
    ∃ a ∈ engineAB.articles,
      mkScored ⟨.int 1, "a", "b", [], 0⟩ 1 =
        mkScored a (calculateRelevance a (searchTermsOf "a")) :=
  (C10_search_pure engineAB "a" "relevance").2
    (mkScored ⟨.int 1, "a", "b", [], 0⟩ 1) (by decide)
